import Mathlib

/-!
Verification development for the `safe-node-app` client data model
(`src/index.d.ts`): the mutable-container entry store with per-entry
versioning and tombstones, atomic multi-action mutation transactions,
the permission table with the `ANYONE` wildcard, the public/private
encryption layer, immutable blob reads, and the NFS file emulation.

The repository ships the TypeScript declaration file only; the behaviour
of each operation is modelled from the specification's contracts (§3,
§4.1-§4.5, §7, §8 of the spec) while the exported constants
(`NFS_FILE_START`, `NFS_FILE_END`, `USER_ANYONE`, `MD_METADATA_KEY`, ...)
are taken verbatim from the declaration file.
-/

namespace SafeNode

/-- Opaque byte strings: keys and values of the entry store are bytes. -/
abbrev Bytes := List Nat

/-- Entry keys (the declaration file accepts `string | Buffer`; we model
them as strings, e.g. the reserved metadata key `'_metadata'`). -/
abbrev Key := String

/-- Error taxonomy of §7 of the spec / `error_const` of the declaration
file.  `versionConflict` carries the key and the expected vs actual
version, as required for retry loops. -/
inductive SafeError where
  | versionConflict (key : Key) (expected actual : Nat)
  | entryAlreadyExists
  | noSuchEntry
  | noPermission
  | accessDenied
  | invalidByteRange
  | fileNotFound
  | dataAlreadyExists
  deriving Repr, DecidableEq

/-- One entry of the store: `value = none` is a tombstone (the deleted
entry's version marker, retained so versioning stays strictly increasing
on re-insertion); `version` is the entry's current version. -/
structure Entry where
  value : Option Bytes
  version : Nat
  deriving Repr, DecidableEq

/-- The versioned key-value map of a MutableData, as an association list.
A key absent from the list was never inserted. -/
abbrev Store := List (Key × Entry)

/-- Look up the entry (live or tombstoned) stored under a key. -/
def lookupEntry : Store → Key → Option Entry
  | [], _ => none
  | (k', e) :: rest, k => if k' = k then some e else lookupEntry rest k

/-- Insert-or-replace the entry stored under a key. -/
def setEntry : Store → Key → Entry → Store
  | [], k, e => [(k, e)]
  | (k', e') :: rest, k, e =>
      if k' = k then (k, e) :: rest else (k', e') :: setEntry rest k e

/-- The current version of a key: the version of its entry (live or
tombstone), and `0` for a key that was never inserted, so that the first
successful write takes it to `1`. -/
def versionOf (s : Store) (k : Key) : Nat :=
  match lookupEntry s k with
  | some e => e.version
  | none => 0

/-- A key is live when it holds a non-tombstoned entry. -/
def isLive (s : Store) (k : Key) : Bool :=
  match lookupEntry s k with
  | some e => e.value.isSome
  | none => false

theorem lookupEntry_setEntry_same (s : Store) (k : Key) (e : Entry) :
    lookupEntry (setEntry s k e) k = some e := by
  induction s with
  | nil => simp [setEntry, lookupEntry]
  | cons p rest ih =>
      by_cases h : p.1 = k
      · simp [setEntry, h, lookupEntry]
      · simp [setEntry, h, lookupEntry, ih]

theorem lookupEntry_setEntry_other (s : Store) (k k' : Key) (e : Entry)
    (h : k' ≠ k) : lookupEntry (setEntry s k e) k' = lookupEntry s k' := by
  induction s with
  | nil => simp [setEntry, lookupEntry, Ne.symm h]
  | cons p rest ih =>
      obtain ⟨pk, pe⟩ := p
      by_cases hp : pk = k
      · subst hp
        simp [setEntry, lookupEntry, Ne.symm h]
      · simp [setEntry, hp, lookupEntry, ih]

theorem versionOf_setEntry_same (s : Store) (k : Key) (e : Entry) :
    versionOf (setEntry s k e) k = e.version := by
  simp [versionOf, lookupEntry_setEntry_same]

/-- Modelled from the spec (§3, §4.1; implementation of
`EntryMutationTransaction` is not under `src/`, only its declaration):
the three pending actions of a mutation transaction.  `Insert` carries no
version; `Update`/`Delete` carry the caller's expected next version
("the version successor"). -/
inductive MDAction where
  | insert (key : Key) (value : Bytes)
  | update (key : Key) (value : Bytes) (version : Nat)
  | delete (key : Key) (version : Nat)
  deriving Repr, DecidableEq

/-- The key an action targets. -/
def MDAction.key : MDAction → Key
  | .insert k _ => k
  | .update k _ _ => k
  | .delete k _ => k

/-- A mutation transaction: the ordered list of pending actions. -/
abbrev EntryMutationTransaction := List MDAction

/-- Modelled from the spec (§4.1): validate one action against a store.
Insert fails with `EntryAlreadyExists` on a live key; Update/Delete
require a live key and an expected version equal to the current version
plus one, else `VersionConflict(key, expected, actual)`. -/
def validateAction (s : Store) : MDAction → Option SafeError
  | .insert k _ =>
      if isLive s k then some .entryAlreadyExists else none
  | .update k _ v =>
      if isLive s k then
        if v = versionOf s k + 1 then none
        else some (.versionConflict k v (versionOf s k))
      else some .noSuchEntry
  | .delete k v =>
      if isLive s k then
        if v = versionOf s k + 1 then none
        else some (.versionConflict k v (versionOf s k))
      else some .noSuchEntry

/-- First validation failure of a transaction against the (live) store,
scanning actions in order. -/
def validateAll (s : Store) : EntryMutationTransaction → Option SafeError
  | [] => none
  | a :: rest =>
      match validateAction s a with
      | some e => some e
      | none => validateAll s rest

/-- Apply one already-validated action: Insert stores the value at the
current version plus one (so a fresh key gets version 1 and a tombstoned
key gets `tombstone_version + 1`); Update stores the caller's version;
Delete leaves a tombstone carrying the caller's version. -/
def applyAction (s : Store) : MDAction → Store
  | .insert k v => setEntry s k ⟨some v, versionOf s k + 1⟩
  | .update k v ver => setEntry s k ⟨some v, ver⟩
  | .delete k ver => setEntry s k ⟨none, ver⟩

/-- Modelled from the spec (§4.1 `commit`, `MutableData.applyEntriesMutation`):
validate every action's expectation against the live store first; on the
first mismatch fail the whole transaction, applying nothing; only when
every action validates, apply them all. -/
def applyEntriesMutation (s : Store) (tx : EntryMutationTransaction) :
    Except SafeError Store :=
  match validateAll s tx with
  | some e => .error e
  | none => .ok (tx.foldl applyAction s)

/-- A single mutation committed on its own (a one-action transaction):
validate, then apply. -/
def applyOne (s : Store) (a : MDAction) : Except SafeError Store :=
  match validateAction s a with
  | some e => .error e
  | none => .ok (applyAction s a)

/-- A sequence of single mutations committed one after the other. -/
def runMutations (s : Store) : List MDAction → Except SafeError Store
  | [] => .ok s
  | a :: rest =>
      match applyOne s a with
      | .error e => .error e
      | .ok s' => runMutations s' rest

/-! ### Constants from the declaration file (`export enum CONSTANTS`) -/

/-- `NFS_FILE_START = 0` (declaration file line 2079). -/
def NFS_FILE_START : Nat := 0

/-- `NFS_FILE_END = 0` (declaration file line 2089). -/
def NFS_FILE_END : Nat := 0

/-- `USER_ANYONE = 0` (declaration file line 2101). -/
def USER_ANYONE : Nat := 0

/-- `MD_METADATA_KEY = '_metadata'` (declaration file line 2115). -/
def MD_METADATA_KEY : Key := "_metadata"

/-! ### Permissions -/

/-- A permission-table grantee: a specific signing key (compared by raw
bytes) or the wildcard `ANYONE`. -/
inductive Identity where
  | anyone
  | signKey (raw : Bytes)
  deriving Repr, DecidableEq

/-- The four entry actions a permission set can grant. -/
inductive PermAction where
  | insert
  | update
  | delete
  | managePermissions
  deriving Repr, DecidableEq

/-- A set of granted actions. -/
abbrev PermissionSet := List PermAction

/-- The per-container permission table: per-identity action grants. -/
abbrev PermissionTable := List (Identity × PermissionSet)

/-- The permission set explicitly recorded for an identity, if any. -/
def lookupExplicit : PermissionTable → Identity → Option PermissionSet
  | [], _ => none
  | (who, ps) :: rest, i => if who = i then some ps else lookupExplicit rest i

/-- Modelled from the spec (§4.2; the `Permissions` implementation is not
under `src/`): resolve the permissions of an identity — its explicit
entry when present, else the `ANYONE` entry when present, else
`NoPermission`. -/
def resolvePermissions (t : PermissionTable) (who : Identity) :
    Except SafeError PermissionSet :=
  match lookupExplicit t who with
  | some ps => .ok ps
  | none =>
      match lookupExplicit t .anyone with
      | some ps => .ok ps
      | none => .error .noPermission

/-- `Permissions.getPermissionSet(signKey?)`: the declaration file says
the `signKey` parameter "Defaults to USER_ANYONE", so an omitted argument
(`none`) is the wildcard `ANYONE` grantee. -/
def getPermissionSet (t : PermissionTable) (signKey : Option Identity) :
    Except SafeError PermissionSet :=
  resolvePermissions t (signKey.getD .anyone)

/-- Modelled from the spec (§4.3 `applyEntriesMutation` / §8 scenario):
check whether an identity may perform an action; resolution failure
(`NoPermission`) and a resolved set lacking the action (`AccessDenied`)
both reject. -/
def checkPermission (t : PermissionTable) (who : Identity)
    (a : PermAction) : Except SafeError Unit :=
  match resolvePermissions t who with
  | .error e => .error e
  | .ok ps => if a ∈ ps then .ok () else .error .accessDenied

/-! ### MutableData and the encryption layer -/

/-- A MutableData handle: its entry store, its permission table, and its
symmetric encryption key (`none` for a Public MutableData, `some k` for
a Private one). -/
structure MutableData where
  entries : Store
  perms : PermissionTable
  encKey : Option Nat
  deriving Repr, DecidableEq

/-- `MutableData.getUserPermissions(signKey?)`: the declaration file says
the `signKey` parameter "Defaults to USER_ANYONE", so an omitted argument
(`none`) is the wildcard `ANYONE` grantee. -/
def getUserPermissions (md : MutableData) (signKey : Option Identity) :
    Except SafeError PermissionSet :=
  resolvePermissions md.perms (signKey.getD .anyone)

/-- Modelled from the spec (§6: the symmetric cipher primitive is an
external collaborator consumed as an opaque operation): a concrete
deterministic, invertible keyed byte transformation standing in for the
container's symmetric encryption. -/
def symEncrypt (k : Nat) (v : Bytes) : Bytes :=
  v.map (fun b => b + (k + 1))

/-- Inverse of `symEncrypt` under the same key. -/
def symDecrypt (k : Nat) (v : Bytes) : Bytes :=
  v.map (fun b => b - (k + 1))

/-- `MutableData.encryptKey`: "If the MutableData is Public, the same
(and unencrypted) value is returned"; on a Private one the container's
symmetric key is applied. -/
def encryptKeyBytes (md : MutableData) (k : Bytes) : Bytes :=
  match md.encKey with
  | none => k
  | some ek => symEncrypt ek k

/-- `MutableData.encryptValue`: identity on a Public MutableData, the
container's symmetric key on a Private one. -/
def encryptValue (md : MutableData) (v : Bytes) : Bytes :=
  match md.encKey with
  | none => v
  | some ek => symEncrypt ek v

/-- `MutableData.decrypt`: identity on a Public MutableData, inverse of
the container's symmetric key on a Private one. -/
def decrypt (md : MutableData) (v : Bytes) : Bytes :=
  match md.encKey with
  | none => v
  | some ek => symDecrypt ek v

/-! ### Metadata (`quickSetup` / `setMetadata`) -/

/-- Length-prefixed encoding of the `(name, description)` metadata pair
into one entry value. -/
def encodeMetadata (name description : Bytes) : Bytes :=
  name.length :: (name ++ description)

/-- Modelled from the spec (`MutableData.setMetadata` and the
`MD_METADATA_KEY` doc: "The metadata is stored as an encoded entry in
the MutableData which key is `MD_METADATA_KEY`"): write the encoded
metadata as an ordinary entry under the reserved key, bumping that
entry's version like any other write. -/
def setMetadata (md : MutableData) (name description : Bytes) :
    MutableData :=
  { md with
    entries := setEntry md.entries MD_METADATA_KEY
      ⟨some (encodeMetadata name description),
       versionOf md.entries MD_METADATA_KEY + 1⟩ }

/-- The initial store built from a key-value payload: every entry starts
at version 1 (its first successful write). -/
def initStore (data : List (Key × Bytes)) : Store :=
  data.map (fun p => (p.1, ⟨some p.2, 1⟩))

/-- Modelled from the spec (`MutableData.quickSetup(data, name,
description)`: "with the app having full-access permissions (and no
other)"): set up a fresh public MutableData holding the payload, with
the metadata committed as the `MD_METADATA_KEY` entry. -/
def quickSetup (app : Identity) (data : List (Key × Bytes))
    (name description : Bytes) : MutableData :=
  setMetadata
    ⟨initStore data,
     [(app, [.insert, .update, .delete, .managePermissions])], none⟩
    name description

/-- `Entries.listEntries`: the list of entries (key plus value/version)
contained in the MutableData, tombstones included. -/
def listEntries (s : Store) : List (Key × Entry) := s

/-- `Entries.len`: the total number of entries in the MutableData. -/
def entriesLen (s : Store) : Nat := s.length

/-! ### Immutable blob reads -/

/-- Modelled from the spec (§4.4 `Reader.read(offset, length)`; only the
`Reader` declaration is under `src/`): `none` for `offset` is the
"from start" default sentinel and `none` for `length` the "to end" one;
an explicit range with `offset + length` exceeding the blob size fails
with `InvalidByteRange`. -/
def readBlob (blob : Bytes) (offset length : Option Nat) :
    Except SafeError Bytes :=
  let off := offset.getD 0
  let len := length.getD (blob.length - off)
  if blob.length < off + len then .error .invalidByteRange
  else .ok ((blob.drop off).take len)

/-! ### NFS emulation -/

/-- Modelled from the spec (§4.5: `NfsFile.read(position, len)` with the
declaration-file sentinels): `len = NFS_FILE_END` (that is, `0`) means
"from `position` until the end of the content"; a range beyond the total
byte range fails with `InvalidByteRange`. -/
def nfsRead (content : Bytes) (position len : Nat) :
    Except SafeError Bytes :=
  let l := if len = NFS_FILE_END then content.length - position else len
  if content.length < position + l then .error .invalidByteRange
  else .ok ((content.drop position).take l)

/-- NFS file open modes (`NFS_FILE_MODE_OVERWRITE` / `APPEND` / `READ`). -/
inductive FileMode where
  | overwrite
  | append
  | read
  deriving Repr, DecidableEq

/-- The file-handle state machine of §4.5:
`Created → Opened(mode) → Written* → Closed`. -/
inductive FileState where
  | created
  | opened (mode : FileMode)
  | closed
  deriving Repr, DecidableEq

/-- An NFS file handle: its state and the locally buffered (not yet
committed) content. -/
structure NfsFile where
  fstate : FileState
  buffer : Bytes
  deriving Repr, DecidableEq

/-- Modelled from the spec (§4.5 and `NfsFile.write`, which throws
`ERR_FILE_NOT_FOUND`): writing buffers content locally on a handle
opened in a write mode; a handle in Read mode, Closed, or never opened
rejects the write with `FileNotFound` and buffers nothing. -/
def nfsWrite (f : NfsFile) (content : Bytes) : Except SafeError NfsFile :=
  match f.fstate with
  | .opened .overwrite => .ok { f with buffer := f.buffer ++ content }
  | .opened .append => .ok { f with buffer := f.buffer ++ content }
  | .opened .read => .error .fileNotFound
  | .closed => .error .fileNotFound
  | .created => .error .fileNotFound

/-! ## Helper lemmas -/

theorem validateAll_append_none (s : Store) (pre rest : List MDAction)
    (h : validateAll s pre = none) :
    validateAll s (pre ++ rest) = validateAll s rest := by
  induction pre with
  | nil => simp
  | cons a pre' ih =>
      simp only [validateAll] at h
      cases hva : validateAction s a with
      | some e => simp [hva] at h
      | none =>
          simp only [hva] at h
          simp only [List.cons_append, validateAll, hva]
          exact ih h

theorem applyOne_version_succ (s : Store) (a : MDAction) (s' : Store)
    (h : applyOne s a = .ok s') :
    versionOf s' a.key = versionOf s a.key + 1 := by
  cases hva : validateAction s a with
  | some e => simp [applyOne, hva] at h
  | none =>
      simp only [applyOne, hva] at h
      cases a with
      | insert k v =>
          cases h
          simp [MDAction.key, applyAction, versionOf_setEntry_same]
      | update k v ver =>
          cases h
          by_cases hl : isLive s k
          · by_cases hv2 : ver = versionOf s k + 1
            · simp [MDAction.key, applyAction, versionOf_setEntry_same, hv2]
            · simp [validateAction, hl, hv2] at hva
          · simp [validateAction, hl] at hva
      | delete k ver =>
          cases h
          by_cases hl : isLive s k
          · by_cases hv2 : ver = versionOf s k + 1
            · simp [MDAction.key, applyAction, versionOf_setEntry_same, hv2]
            · simp [validateAction, hl, hv2] at hva
          · simp [validateAction, hl] at hva

theorem runMutations_version (k : Key) :
    ∀ (acts : List MDAction) (s s' : Store),
      (∀ a ∈ acts, a.key = k) → runMutations s acts = .ok s' →
      versionOf s' k = versionOf s k + acts.length := by
  intro acts
  induction acts with
  | nil =>
      intro s s' _ h
      simp only [runMutations, Except.ok.injEq] at h
      subst h
      simp
  | cons a rest ih =>
      intro s s' hk h
      simp only [runMutations] at h
      cases ha : applyOne s a with
      | error e => simp [ha] at h
      | ok s₁ =>
          simp only [ha] at h
          have h1 := applyOne_version_succ s a s₁ ha
          have hak : a.key = k := hk a (by simp)
          rw [hak] at h1
          have h2 := ih s₁ s' (fun b hb => hk b (by simp [hb])) h
          rw [h2, h1]
          simp [List.length_cons]
          omega

/-! ## Claims -/

/-- C1: committing a `MutationTransaction` through `applyEntriesMutation`
is all-or-nothing — every action's version expectation is validated
against the live store before any action is applied; the commit succeeds
exactly when every action validates, any validation failure fails the
whole commit (so no mutated store is ever produced, leaving the store
unchanged for every action in the transaction, in particular for a
two-action transaction whose second action fails); and the first
version-expectation mismatch yields `VersionConflict` carrying the key,
the caller's expected version and the live actual version. -/
theorem applyEntriesMutation_atomic (s : Store)
    (tx : EntryMutationTransaction) :
    (applyEntriesMutation s tx = .ok (tx.foldl applyAction s) ↔
      validateAll s tx = none)
    ∧ (∀ e, validateAll s tx = some e →
        applyEntriesMutation s tx = .error e ∧
        ∀ s', applyEntriesMutation s tx ≠ .ok s')
    ∧ (∀ pre k v ver post, tx = pre ++ MDAction.update k v ver :: post →
        validateAll s pre = none → isLive s k = true →
        ver ≠ versionOf s k + 1 →
        applyEntriesMutation s tx =
          .error (.versionConflict k ver (versionOf s k))) := by
  refine ⟨?_, ?_, ?_⟩
  · cases hv : validateAll s tx <;> simp [applyEntriesMutation, hv]
  · intro e he
    refine ⟨by simp [applyEntriesMutation, he], ?_⟩
    intro s'
    simp [applyEntriesMutation, he]
  · intro pre k v ver post htx hpre hlive hver
    have hva : validateAction s (MDAction.update k v ver) =
        some (.versionConflict k ver (versionOf s k)) := by
      simp [validateAction, hlive, hver]
    have hall : validateAll s tx =
        some (SafeError.versionConflict k ver (versionOf s k)) := by
      rw [htx, validateAll_append_none s pre _ hpre]
      simp [validateAll, hva]
    simp [applyEntriesMutation, hall]

/-- Witness for C1: on a store holding `"a"` at version 1, a two-action
transaction whose first action (a fresh insert) is valid but whose
second action expects version 5 fails whole with
`VersionConflict("a", 5, 1)`. -/
theorem applyEntriesMutation_atomic_witness :
    applyEntriesMutation [("a", ⟨some [1], 1⟩), ("b", ⟨some [2], 1⟩)]
        [MDAction.insert "c" [3], MDAction.update "a" [9] 5] =
      .error (.versionConflict "a" 5 1) := by
  have h := (applyEntriesMutation_atomic
      [("a", ⟨some [1], 1⟩), ("b", ⟨some [2], 1⟩)]
      [MDAction.insert "c" [3], MDAction.update "a" [9] 5]).2.2
      [MDAction.insert "c" [3]] "a" [9] 5 [] rfl (by decide) (by decide)
      (by decide)
  simpa using h

/-- C2: a key's version increases strictly by one on every successful
single mutation of that key; a successful `Delete` consumes a version
slot, leaving a tombstone entry (value erased, version bumped) rather
than erasing version history; and for a key never inserted before, after
a sequence of N successful writes to the key (tombstoning deletes
counted as writes) its version equals N. -/
theorem version_strict_increment (k : Key) (s s' : Store)
    (acts : List MDAction) :
    (∀ a s₁ s₂, applyOne s₁ a = .ok s₂ →
      versionOf s₂ a.key = versionOf s₁ a.key + 1)
    ∧ (∀ ver s₁ s₂, applyOne s₁ (MDAction.delete k ver) = .ok s₂ →
        lookupEntry s₂ k = some ⟨none, versionOf s₁ k + 1⟩)
    ∧ ((∀ a ∈ acts, a.key = k) → lookupEntry s k = none →
        runMutations s acts = .ok s' → versionOf s' k = acts.length) := by
  refine ⟨fun a s₁ s₂ h => applyOne_version_succ s₁ a s₂ h, ?_, ?_⟩
  · intro ver s₁ s₂ h
    cases hva : validateAction s₁ (MDAction.delete k ver) with
    | some e => simp [applyOne, hva] at h
    | none =>
        simp only [applyOne, hva, Except.ok.injEq] at h
        subst h
        by_cases hl : isLive s₁ k
        · by_cases hv2 : ver = versionOf s₁ k + 1
          · simp [applyAction, lookupEntry_setEntry_same, hv2]
          · simp [validateAction, hl, hv2] at hva
        · simp [validateAction, hl] at hva
  · intro hk h0 hrun
    have h := runMutations_version k acts s s' hk hrun
    rw [h]
    simp [versionOf, h0]

/-- Witness for C2: starting from the empty store, the three successful
writes insert/update/delete on key `"k"` (the delete tombstoning) leave
`"k"` at version 3 = N. -/
theorem version_strict_increment_witness :
    versionOf [("k", ⟨none, 3⟩)] "k" =
      [MDAction.insert "k" [1], MDAction.update "k" [2] 2,
       MDAction.delete "k" 3].length :=
  (version_strict_increment "k" [] [("k", ⟨none, 3⟩)]
      [MDAction.insert "k" [1], MDAction.update "k" [2] 2,
       MDAction.delete "k" 3]).2.2
    (by decide) rfl rfl

/-- C3: an Insert action on a live (present, non-tombstoned) key always
fails with `EntryAlreadyExists`; an Insert action on a tombstoned key
succeeds and gives the entry version `tombstone_version + 1`. -/
theorem insert_live_fails_tombstone_succeeds (s : Store) (k : Key)
    (v : Bytes) :
    (isLive s k = true →
      applyOne s (MDAction.insert k v) = .error .entryAlreadyExists)
    ∧ (∀ tv, lookupEntry s k = some ⟨none, tv⟩ →
        applyOne s (MDAction.insert k v) =
          .ok (setEntry s k ⟨some v, tv + 1⟩)
        ∧ lookupEntry (setEntry s k ⟨some v, tv + 1⟩) k =
            some ⟨some v, tv + 1⟩) := by
  constructor
  · intro hl
    simp [applyOne, validateAction, hl]
  · intro tv htv
    have hl : isLive s k = false := by simp [isLive, htv]
    have hv : versionOf s k = tv := by simp [versionOf, htv]
    exact ⟨by simp [applyOne, validateAction, applyAction, hl, hv],
      lookupEntry_setEntry_same s k ⟨some v, tv + 1⟩⟩

/-- Witness for C3: inserting over the tombstone of `"k"` at version 2
succeeds with version 3, while inserting over the live `"x"` fails with
`EntryAlreadyExists`. -/
theorem insert_live_fails_tombstone_succeeds_witness :
    applyOne [("k", ⟨none, 2⟩), ("x", ⟨some [7], 1⟩)]
        (MDAction.insert "x" [5]) = .error .entryAlreadyExists
    ∧ applyOne [("k", ⟨none, 2⟩), ("x", ⟨some [7], 1⟩)]
        (MDAction.insert "k" [5]) =
      .ok (setEntry [("k", ⟨none, 2⟩), ("x", ⟨some [7], 1⟩)] "k"
        ⟨some [5], 2 + 1⟩) :=
  ⟨(insert_live_fails_tombstone_succeeds
      [("k", ⟨none, 2⟩), ("x", ⟨some [7], 1⟩)] "x" [5]).1 rfl,
   ((insert_live_fails_tombstone_succeeds
      [("k", ⟨none, 2⟩), ("x", ⟨some [7], 1⟩)] "k" [5]).2 2 rfl).1⟩

/-- C4: on a public MutableData (`encKey = none`) `encryptKey` and
`encryptValue` are the identity function; on a private MutableData
`decrypt` inverts `encryptValue`, returning the original bytes; and
encryption is deterministic — two handles holding the same container key
produce byte-identical ciphertext for the same plaintext. -/
theorem encryption_public_identity_private_roundtrip
    (md md2 : MutableData) (v : Bytes) :
    (md.encKey = none →
      encryptKeyBytes md v = v ∧ encryptValue md v = v)
    ∧ (∀ ek, md.encKey = some ek → decrypt md (encryptValue md v) = v)
    ∧ (md.encKey = md2.encKey →
        encryptValue md v = encryptValue md2 v ∧
        encryptKeyBytes md v = encryptKeyBytes md2 v) := by
  refine ⟨?_, ?_, ?_⟩
  · intro h
    simp [encryptKeyBytes, encryptValue, h]
  · intro ek h
    simp [encryptValue, decrypt, h, symEncrypt, symDecrypt,
      List.map_map, Function.comp_def, Nat.add_sub_cancel]
  · intro h
    simp [encryptValue, encryptKeyBytes, h]

/-- Witness for C4: a private container with key 5 round-trips the value
`[0, 200, 41]`, and a second handle with the same key encrypts it to the
same bytes. -/
theorem encryption_roundtrip_witness :
    decrypt ⟨[], [], some 5⟩ (encryptValue ⟨[], [], some 5⟩ [0, 200, 41])
        = [0, 200, 41]
    ∧ encryptValue ⟨[], [], some 5⟩ [0, 200, 41]
        = encryptValue ⟨[("a", ⟨some [1], 1⟩)], [], some 5⟩ [0, 200, 41]
    ∧ encryptKeyBytes ⟨[], [], none⟩ [0, 200, 41] = [0, 200, 41] :=
  ⟨(encryption_public_identity_private_roundtrip ⟨[], [], some 5⟩
      ⟨[], [], some 5⟩ [0, 200, 41]).2.1 5 rfl,
   ((encryption_public_identity_private_roundtrip ⟨[], [], some 5⟩
      ⟨[("a", ⟨some [1], 1⟩)], [], some 5⟩ [0, 200, 41]).2.2 rfl).1,
   ((encryption_public_identity_private_roundtrip ⟨[], [], none⟩
      ⟨[], [], none⟩ [0, 200, 41]).1 rfl).1⟩

/-- C5: a permission lookup for an identity with no explicit table entry
falls back to the `ANYONE` entry when one is present and fails with
`NoPermission` when none exists; with a table containing only
`ANYONE ↦ {Insert}`, such an identity succeeds at Insert and fails at
Delete with `AccessDenied`. -/
theorem anyone_fallback (t : PermissionTable) (who : Identity)
    (h : lookupExplicit t who = none) :
    (∀ ps, lookupExplicit t .anyone = some ps →
      resolvePermissions t who = .ok ps)
    ∧ (lookupExplicit t .anyone = none →
        resolvePermissions t who = .error .noPermission)
    ∧ (lookupExplicit [(Identity.anyone, [PermAction.insert])] who
          = none →
        checkPermission [(Identity.anyone, [PermAction.insert])] who
          PermAction.insert = .ok ()
        ∧ checkPermission [(Identity.anyone, [PermAction.insert])] who
            PermAction.delete = .error .accessDenied) := by
  refine ⟨?_, ?_, ?_⟩
  · intro ps hps
    simp [resolvePermissions, h, hps]
  · intro hnone
    simp [resolvePermissions, h, hnone]
  · intro h2
    have ha : lookupExplicit [(Identity.anyone, [PermAction.insert])]
        Identity.anyone = some [PermAction.insert] := rfl
    constructor <;>
      simp [checkPermission, resolvePermissions, h2, ha]

/-- Witness for C5: the identity with raw key bytes `[7]` is not in the
`ANYONE ↦ {Insert}` table, may Insert, and is denied Delete. -/
theorem anyone_fallback_witness :
    checkPermission [(Identity.anyone, [PermAction.insert])]
        (Identity.signKey [7]) PermAction.insert = .ok ()
    ∧ checkPermission [(Identity.anyone, [PermAction.insert])]
        (Identity.signKey [7]) PermAction.delete =
      .error .accessDenied :=
  (anyone_fallback [(Identity.anyone, [PermAction.insert])]
    (Identity.signKey [7]) rfl).2.2 rfl

/-- C6: `Reader.read` on a committed blob fails with `InvalidByteRange`
whenever `offset + length` exceeds the blob size; the default sentinel
for `offset` means "from the start of the blob" and the default sentinel
for `length` means "to the end of the blob". -/
theorem read_default_sentinels (blob : Bytes) (off len : Nat) :
    (blob.length < off + len →
      readBlob blob (some off) (some len) = .error .invalidByteRange)
    ∧ readBlob blob none none = .ok blob
    ∧ (off ≤ blob.length →
        readBlob blob (some off) none = .ok (blob.drop off))
    ∧ (len ≤ blob.length →
        readBlob blob none (some len) = .ok (blob.take len)) := by
  refine ⟨?_, ?_, ?_, ?_⟩
  · intro h
    simp [readBlob, h]
  · simp [readBlob]
  · intro h
    have hco : off + (blob.length - off) = blob.length :=
      Nat.add_sub_cancel' h
    have ht : (blob.drop off).take (blob.length - off) = blob.drop off :=
      List.take_of_length_le (by simp)
    simp [readBlob, hco, ht]
  · intro h
    simp [readBlob, Nat.not_lt.mpr h]

/-- Witness for C6: on the three-byte blob `[1, 2, 3]`, reading 5 bytes
from offset 2 is `InvalidByteRange`, and both sentinels omitted read the
whole blob. -/
theorem read_default_sentinels_witness :
    readBlob [1, 2, 3] (some 2) (some 5) = .error .invalidByteRange
    ∧ readBlob [1, 2, 3] none none = .ok [1, 2, 3] :=
  ⟨(read_default_sentinels [1, 2, 3] 2 5).1 (by decide),
   (read_default_sentinels [1, 2, 3] 0 0).2.1⟩

/-- C7: `write` on an NFS file handle that is in Read mode or has been
Closed fails with `FileNotFound` and never produces an updated handle —
nothing is buffered or committed. -/
theorem nfs_write_read_or_closed_fails (f : NfsFile) (c : Bytes)
    (h : f.fstate = .opened .read ∨ f.fstate = .closed) :
    nfsWrite f c = .error .fileNotFound ∧
    ∀ f', nfsWrite f c ≠ .ok f' := by
  rcases h with h | h <;> simp [nfsWrite, h]

/-- Witness for C7: writing to a closed handle fails with
`FileNotFound`. -/
theorem nfs_write_read_or_closed_fails_witness :
    nfsWrite ⟨.closed, [1]⟩ [2] = .error .fileNotFound :=
  (nfs_write_read_or_closed_fails ⟨.closed, [1]⟩ [2] (Or.inr rfl)).1

/-- C8: the sentinels `NFS_FILE_START` and `NFS_FILE_END` are both 0, so
`NfsFile.read(0, 0)` returns the file's entire content rather than zero
bytes, and no length argument passed with position 0 can make the read
return exactly zero bytes on a non-empty file. -/
theorem nfs_sentinels_collide (content : Bytes) :
    NFS_FILE_START = 0 ∧ NFS_FILE_END = 0
    ∧ nfsRead content NFS_FILE_START NFS_FILE_END = .ok content
    ∧ (content ≠ [] →
        ∀ len, nfsRead content NFS_FILE_START len ≠ .ok []) := by
  refine ⟨rfl, rfl, ?_, ?_⟩
  · simp [nfsRead, NFS_FILE_START, NFS_FILE_END]
  · intro hne len h
    by_cases h0 : len = 0
    · rw [h0] at h
      have hh : nfsRead content NFS_FILE_START 0 = .ok content := by
        simp [nfsRead, NFS_FILE_START, NFS_FILE_END]
      rw [hh] at h
      exact hne (by simpa using h)
    · by_cases hc : content.length < len
      · simp [nfsRead, NFS_FILE_START, NFS_FILE_END, h0, hc] at h
      · simp [nfsRead, NFS_FILE_START, NFS_FILE_END, h0, hc] at h
        exact hne h

/-- Witness for C8: on the one-byte file `[5]`, `read(0, 0)` returns the
whole content and `read(0, 2)` does not return zero bytes. -/
theorem nfs_sentinels_collide_witness :
    nfsRead [5] NFS_FILE_START NFS_FILE_END = .ok [5]
    ∧ nfsRead [5] NFS_FILE_START 2 ≠ .ok [] :=
  ⟨(nfs_sentinels_collide [5]).2.2.1,
   (nfs_sentinels_collide [5]).2.2.2 (by decide) 2⟩

theorem length_setEntry_absent (s : Store) (k : Key) (e : Entry)
    (h : lookupEntry s k = none) :
    (setEntry s k e).length = s.length + 1 := by
  induction s with
  | nil => simp [setEntry]
  | cons p rest ih =>
      obtain ⟨pk, pe⟩ := p
      simp only [lookupEntry] at h
      by_cases hp : pk = k
      · simp [hp] at h
      · simp only [hp, if_false] at h
        simp [setEntry, hp, ih h]

theorem mem_keys_of_lookup (s : Store) (k : Key) (e : Entry)
    (h : lookupEntry s k = some e) : k ∈ s.map Prod.fst := by
  induction s with
  | nil => simp [lookupEntry] at h
  | cons p rest ih =>
      obtain ⟨pk, pe⟩ := p
      simp only [lookupEntry] at h
      by_cases hp : pk = k
      · simp [hp]
      · simp only [hp, if_false] at h
        simp [ih h]

/-- C9: both `quickSetup` with name/description and `setMetadata` store
the container metadata as an ordinary encoded entry of the container's
own entry store under the reserved key `MD_METADATA_KEY = '_metadata'`;
the entry is visible through the generic entry operations (`listEntries`
surfaces its key, `len` counts it), and `setMetadata` changes only that
entry, leaving every application entry unchanged. -/
theorem metadata_is_ordinary_entry (md : MutableData)
    (name description : Bytes) (k : Key) (h : k ≠ MD_METADATA_KEY) :
    lookupEntry (setMetadata md name description).entries k =
      lookupEntry md.entries k
    ∧ lookupEntry (setMetadata md name description).entries
        MD_METADATA_KEY =
      some ⟨some (encodeMetadata name description),
            versionOf md.entries MD_METADATA_KEY + 1⟩
    ∧ MD_METADATA_KEY ∈
        (listEntries (setMetadata md name description).entries).map
          Prod.fst
    ∧ (∀ app data,
        lookupEntry (quickSetup app data name description).entries
          MD_METADATA_KEY =
        some ⟨some (encodeMetadata name description),
              versionOf (initStore data) MD_METADATA_KEY + 1⟩)
    ∧ (lookupEntry md.entries MD_METADATA_KEY = none →
        entriesLen (setMetadata md name description).entries =
          entriesLen md.entries + 1) := by
  refine ⟨?_, ?_, ?_, ?_, ?_⟩
  · exact lookupEntry_setEntry_other md.entries MD_METADATA_KEY k _ h
  · exact lookupEntry_setEntry_same md.entries MD_METADATA_KEY _
  · exact mem_keys_of_lookup _ MD_METADATA_KEY _
      (lookupEntry_setEntry_same md.entries MD_METADATA_KEY _)
  · intro app data
    exact lookupEntry_setEntry_same (initStore data) MD_METADATA_KEY _
  · intro habs
    exact length_setEntry_absent md.entries MD_METADATA_KEY _ habs

/-- Witness for C9: setting metadata on a container holding the single
application entry `"app.key"` leaves that entry unchanged, stores the
encoded metadata under `'_metadata'` at version 1, and grows `len` from
1 to 2. -/
theorem metadata_is_ordinary_entry_witness :
    lookupEntry
        (setMetadata ⟨[("app.key", ⟨some [1], 1⟩)], [], none⟩ [10] [20]).entries
        "app.key" =
      lookupEntry [("app.key", ⟨some [1], 1⟩)] "app.key"
    ∧ lookupEntry
        (setMetadata ⟨[("app.key", ⟨some [1], 1⟩)], [], none⟩ [10] [20]).entries
        MD_METADATA_KEY =
      some ⟨some (encodeMetadata [10] [20]), 1⟩
    ∧ entriesLen
        (setMetadata ⟨[("app.key", ⟨some [1], 1⟩)], [], none⟩ [10] [20]).entries
        = 2 := by
  have h := metadata_is_ordinary_entry ⟨[("app.key", ⟨some [1], 1⟩)], [], none⟩
    [10] [20] "app.key" (by decide)
  exact ⟨h.1, h.2.1, h.2.2.2.2 rfl⟩

/-- C10: omitting the `signKey` argument of
`Permissions.getPermissionSet` and `MutableData.getUserPermissions`
makes the operation act on the wildcard `ANYONE` grantee
(`USER_ANYONE = 0`): with the argument omitted the lookup resolves the
`ANYONE` entry, even when specific signing identities have their own
distinct entries in the table. -/
theorem omitted_signkey_means_anyone (t : PermissionTable)
    (md : MutableData) :
    USER_ANYONE = 0
    ∧ getPermissionSet t none = resolvePermissions t .anyone
    ∧ getUserPermissions md none = resolvePermissions md.perms .anyone
    ∧ (∀ ps, lookupExplicit t .anyone = some ps →
        getPermissionSet t none = .ok ps)
    ∧ (∀ raw ps ps', lookupExplicit t .anyone = some ps →
        lookupExplicit t (.signKey raw) = some ps' →
        getPermissionSet t none = .ok ps ∧
        getPermissionSet t (some (.signKey raw)) = .ok ps') := by
  refine ⟨rfl, rfl, rfl, ?_, ?_⟩
  · intro ps hps
    simp [getPermissionSet, resolvePermissions, hps]
  · intro raw ps ps' hps hps'
    constructor
    · simp [getPermissionSet, resolvePermissions, hps]
    · simp [getPermissionSet, resolvePermissions, hps']

/-- Witness for C10: in a table granting `ANYONE ↦ {Insert}` and the
specific key `[3]` full management, the omitted-`signKey` lookup returns
the `ANYONE` set, not the specific identity's set. -/
theorem omitted_signkey_means_anyone_witness :
    getPermissionSet
        [(Identity.anyone, [PermAction.insert]),
         (Identity.signKey [3], [PermAction.managePermissions])] none =
      .ok [PermAction.insert]
    ∧ getPermissionSet
        [(Identity.anyone, [PermAction.insert]),
         (Identity.signKey [3], [PermAction.managePermissions])]
        (some (Identity.signKey [3])) =
      .ok [PermAction.managePermissions] :=
  (omitted_signkey_means_anyone
      [(Identity.anyone, [PermAction.insert]),
       (Identity.signKey [3], [PermAction.managePermissions])]
      ⟨[], [], none⟩).2.2.2.2
    [3] [PermAction.insert] [PermAction.managePermissions] rfl rfl

end SafeNode
